import Mathlib

/-!
# Verification of the rust-physics-sandbox soft-body core

Shallow embedding of `src/soft_body.rs`, `src/physics.rs` and the command
dispatch of `src/lib.rs` from the Caerii/3D-Web-Sandbox repository.

Modelling conventions:
* `f32` scalars are embedded as exact rationals `ℚ`.
* The square root inside `Vector3::norm`, `metric_distance` and `normalize`
  has no exact counterpart on `ℚ`, so every solver function takes an explicit
  `sqrtFn : ℚ → ℚ` applied to the squared norm; theorems quantify over it,
  and `Rat.sqrt` (exact on rational squares) instantiates it in witnesses.
* The external rapier query `QueryPipeline::project_point` is an oracle
  parameter `query : Vec3 → Option (Vec3 × Bool)` returning the projected
  surface point and the `is_inside` flag (the returned collider handle is
  unused by the source and omitted).
* Rust `for` loops that push into vectors become `List.flatMap` / `List.map`
  / `List.foldl` over `List.range`, preserving iteration order; in-place
  index assignment becomes `List.set`.
-/

set_option maxHeartbeats 1000000

namespace PhysicsSandbox

/-- 3-component vector over `ℚ`, embedding nalgebra `Vector3<f32>` and
`Point3<f32>` (both are plain x/y/z triples). -/
structure Vec3 where
  x : ℚ
  y : ℚ
  z : ℚ
deriving DecidableEq, Repr

instance : Add Vec3 := ⟨fun a b => ⟨a.x + b.x, a.y + b.y, a.z + b.z⟩⟩

instance : Sub Vec3 := ⟨fun a b => ⟨a.x - b.x, a.y - b.y, a.z - b.z⟩⟩

instance : SMul ℚ Vec3 := ⟨fun q v => ⟨q * v.x, q * v.y, q * v.z⟩⟩

@[simp] theorem Vec3.add_x (a b : Vec3) : (a + b).x = a.x + b.x := rfl

@[simp] theorem Vec3.add_y (a b : Vec3) : (a + b).y = a.y + b.y := rfl

@[simp] theorem Vec3.add_z (a b : Vec3) : (a + b).z = a.z + b.z := rfl

@[simp] theorem Vec3.sub_x (a b : Vec3) : (a - b).x = a.x - b.x := rfl

@[simp] theorem Vec3.sub_y (a b : Vec3) : (a - b).y = a.y - b.y := rfl

@[simp] theorem Vec3.sub_z (a b : Vec3) : (a - b).z = a.z - b.z := rfl

@[simp] theorem Vec3.smul_x (q : ℚ) (v : Vec3) : (q • v).x = q * v.x := rfl

@[simp] theorem Vec3.smul_y (q : ℚ) (v : Vec3) : (q • v).y = q * v.y := rfl

@[simp] theorem Vec3.smul_z (q : ℚ) (v : Vec3) : (q • v).z = q * v.z := rfl

@[simp] theorem Vec3.add_mk (a b c d e f : ℚ) :
    ((⟨a, b, c⟩ : Vec3) + ⟨d, e, f⟩) = (⟨a + d, b + e, c + f⟩ : Vec3) := rfl

@[simp] theorem Vec3.sub_mk (a b c d e f : ℚ) :
    ((⟨a, b, c⟩ : Vec3) - ⟨d, e, f⟩) = (⟨a - d, b - e, c - f⟩ : Vec3) := rfl

@[simp] theorem Vec3.smul_mk (q a b c : ℚ) :
    (q • (⟨a, b, c⟩ : Vec3)) = (⟨q * a, q * b, q * c⟩ : Vec3) := rfl

/-- The zero vector, `Vector3::zeros()`. -/
def Vec3.zero : Vec3 := ⟨0, 0, 0⟩

/-- Squared Euclidean norm; `delta.norm()` in the source is
`sqrtFn (normSq delta)` in the embedding. -/
def normSq (v : Vec3) : ℚ := v.x * v.x + v.y * v.y + v.z * v.z

/-- `Particle` from `soft_body.rs`. -/
structure Particle where
  position : Vec3
  velocity : Vec3
  mass : ℚ
  inv_mass : ℚ
  pinned : Bool
deriving DecidableEq, Repr

/-- `Particle::new` from `soft_body.rs`: zero velocity, unpinned,
`inv_mass = if mass > 0.0 { 1.0 / mass } else { 0.0 }`. -/
def Particle.new (x y z mass : ℚ) : Particle :=
  { position := ⟨x, y, z⟩
    velocity := Vec3.zero
    mass := mass
    inv_mass := if 0 < mass then 1 / mass else 0
    pinned := false }

/-- `Spring` from `soft_body.rs`. -/
structure Spring where
  p1 : ℕ
  p2 : ℕ
  rest_length : ℚ
  stiffness : ℚ
  damping : ℚ
deriving DecidableEq, Repr

/-- `SoftBody` from `soft_body.rs`. -/
structure SoftBody where
  particles : List Particle
  springs : List Spring
deriving DecidableEq, Repr

/-- `SoftBody::new`. -/
def SoftBody.new : SoftBody := ⟨[], []⟩

/-- The particle pushed for grid cell `(z, x)` inside `create_cloth`:
`Particle::new(offset.x + x*spacing, offset.y, offset.z + z*spacing, 1.0)`,
then pinned (with `inv_mass = 0`) iff `z == 0 && (x == 0 || x == width-1)`. -/
def clothParticle (width : ℕ) (spacing : ℚ) (offset : Vec3) (z x : ℕ) : Particle :=
  let p := Particle.new (offset.x + (x : ℚ) * spacing) offset.y
    (offset.z + (z : ℚ) * spacing) 1
  if z = 0 ∧ (x = 0 ∨ x = width - 1) then { p with pinned := true, inv_mass := 0 }
  else p

/-- The springs pushed for grid cell `(z, x)` inside `create_cloth`:
a "structural right" spring when `x < width-1` and a "structural down"
spring when `z < height-1`, both with rest length `spacing`,
stiffness `100.0` and damping `0.5` (the arguments of `add_spring`). -/
def clothCellSprings (start_idx width height : ℕ) (spacing : ℚ) (z x : ℕ) : List Spring :=
  let idx := start_idx + z * width + x
  (if x < width - 1 then [⟨idx, idx + 1, spacing, 100, 1 / 2⟩] else []) ++
    (if z < height - 1 then [⟨idx, idx + width, spacing, 100, 1 / 2⟩] else [])

/-- `SoftBody::create_cloth` from `soft_body.rs`: appends a `height × width`
particle grid (row-major, `z` outer, `x` inner) and then the structural
springs, starting indices at the current particle count. -/
def SoftBody.create_cloth (sb : SoftBody) (width height : ℕ) (spacing : ℚ)
    (offset : Vec3) : SoftBody :=
  let start_idx := sb.particles.length
  { particles := sb.particles ++
      (List.range height).flatMap fun z =>
        (List.range width).map (clothParticle width spacing offset z)
    springs := sb.springs ++
      (List.range height).flatMap fun z =>
        (List.range width).flatMap (clothCellSprings start_idx width height spacing z) }

/-- Default used to totalise the panicking Rust index `self.particles[i]`;
all claims only exercise in-range indices. -/
def defaultParticle : Particle := Particle.new 0 0 0 1

/-- Read `self.particles[i]` (total, via default). -/
def getP (ps : List Particle) (i : ℕ) : Particle := ps.getD i defaultParticle

/-- In-place read-modify-write `self.particles[i].f = ...`. -/
def updAt (ps : List Particle) (i : ℕ) (f : Particle → Particle) : List Particle :=
  ps.set i (f (getP ps i))

/-- Phase 1 of `SoftBody::step`: for every non-pinned particle,
`p.velocity += gravity * dt`; pinned particles are `continue`d over. -/
def gravityPhase (dt : ℚ) (gravity : Vec3) (ps : List Particle) : List Particle :=
  ps.map fun p => if p.pinned then p else { p with velocity := p.velocity + dt • gravity }

/-- One spring of phase 2 of `SoftBody::step`: copies of both endpoints are
read, the spring is skipped when `dist < 1e-4`, otherwise
`correction = delta * 0.5 * diff * 0.8` is added to the non-pinned `p1`
and subtracted from the non-pinned `p2`, each followed by `velocity *= 0.999`.
Stiffness and damping fields of the spring are not read. -/
def relaxSpring (sqrtFn : ℚ → ℚ) (ps : List Particle) (spring : Spring) : List Particle :=
  let p1 := getP ps spring.p1
  let p2 := getP ps spring.p2
  let delta := p2.position - p1.position
  let dist := sqrtFn (normSq delta)
  if dist < 1 / 10000 then ps
  else
    let diff := (dist - spring.rest_length) / dist
    let correction := (1 / 2 * diff * (4 / 5)) • delta
    let ps1 :=
      if p1.pinned then ps
      else updAt ps spring.p1 fun q =>
        { q with position := q.position + correction
                 velocity := ((999 : ℚ) / 1000) • q.velocity }
    if p2.pinned then ps1
    else updAt ps1 spring.p2 fun q =>
      { q with position := q.position - correction
               velocity := ((999 : ℚ) / 1000) • q.velocity }

/-- One pass of the inner `for spring in &self.springs` loop. -/
def relaxIteration (sqrtFn : ℚ → ℚ) (springs : List Spring) (ps : List Particle) :
    List Particle :=
  springs.foldl (relaxSpring sqrtFn) ps

/-- Phase 2 of `SoftBody::step`: `let iterations = 2;` fixed relaxation passes. -/
def relaxPhase (sqrtFn : ℚ → ℚ) (springs : List Spring) (ps : List Particle) :
    List Particle :=
  relaxIteration sqrtFn springs (relaxIteration sqrtFn springs ps)

/-- The tentative position/velocity of phase 3, after the floor clamp:
`new_pos = position + velocity * dt`; if `new_pos.y < 0` then `new_pos.y = 0`,
`velocity.y = 0`, `velocity.x *= 0.9`, `velocity.z *= 0.9`. -/
def tentative (dt : ℚ) (p : Particle) : Vec3 × Vec3 :=
  let new_pos := p.position + dt • p.velocity
  if new_pos.y < 0 then
    (⟨new_pos.x, 0, new_pos.z⟩, ⟨9 / 10 * p.velocity.x, 0, 9 / 10 * p.velocity.z⟩)
  else (new_pos, p.velocity)

/-- Phase 3 of `SoftBody::step` for one particle: pinned particles are
skipped; otherwise floor clamp, then the closest-point query at the
tentative position (`particle_radius = 0.1`): inside → snap to the surface
point and `velocity *= 0.5`; within the radius → push out along the
normalized surface-to-point vector by `radius - dist` and `velocity *= 0.9`;
otherwise the tentative state is committed unmodified. -/
def integrateParticle (dt : ℚ) (sqrtFn : ℚ → ℚ)
    (query : Vec3 → Option (Vec3 × Bool)) (p : Particle) : Particle :=
  if p.pinned then p
  else
    let tp := (tentative dt p).1
    let tv := (tentative dt p).2
    match query tp with
    | none => { p with position := tp, velocity := tv }
    | some (projPoint, isInside) =>
      let dist := sqrtFn (normSq (tp - projPoint))
      if isInside then
        { p with position := projPoint, velocity := ((1 : ℚ) / 2) • tv }
      else if dist < 1 / 10 then
        let normal := (1 / dist) • (tp - projPoint)
        { p with position := tp + (1 / 10 - dist) • normal
                 velocity := ((9 : ℚ) / 10) • tv }
      else { p with position := tp, velocity := tv }

/-- `SoftBody::step` from `soft_body.rs`: gravity phase, two relaxation
iterations, then integration + collision per particle. -/
def SoftBody.step (sb : SoftBody) (dt : ℚ) (gravity : Vec3) (sqrtFn : ℚ → ℚ)
    (query : Vec3 → Option (Vec3 × Bool)) : SoftBody :=
  let relaxed := relaxPhase sqrtFn sb.springs (gravityPhase dt gravity sb.particles)
  { sb with particles := relaxed.map (integrateParticle dt sqrtFn query) }

/-! ## Helper lemmas for the cloth grid -/

theorem length_flatMap_map_range {α : Type} (W : ℕ) (f : ℕ → ℕ → α) :
    ∀ H : ℕ, ((List.range H).flatMap fun z => (List.range W).map (f z)).length = H * W := by
  intro H
  induction H with
  | zero => simp
  | succ n ih =>
    rw [List.range_succ, List.flatMap_append]
    simp [ih, Nat.succ_mul]

theorem getElem_flatMap_map_range {α : Type} (W : ℕ) (f : ℕ → ℕ → α) :
    ∀ (H z x : ℕ), z < H → x < W →
      ((List.range H).flatMap fun z => (List.range W).map (f z))[z * W + x]? = some (f z x) := by
  intro H
  induction H with
  | zero => intro z x hz; omega
  | succ n ih =>
    intro z x hz hx
    rw [List.range_succ, List.flatMap_append]
    by_cases hzn : z < n
    · rw [List.getElem?_append_left]
      · exact ih z x hzn hx
      · rw [length_flatMap_map_range]
        calc z * W + x < z * W + W := by omega
          _ = (z + 1) * W := by ring
          _ ≤ n * W := Nat.mul_le_mul_right W (by omega)
    · have hzn' : z = n := by omega
      subst hzn'
      rw [List.getElem?_append_right]
      · rw [length_flatMap_map_range]
        simp only [List.flatMap_cons, List.flatMap_nil, List.append_nil]
        have : z * W + x - z * W = x := by omega
        rw [this, List.getElem?_map, List.getElem?_range hx]
        rfl
      · rw [length_flatMap_map_range]
        omega

theorem length_flatMap_cell (s W H : ℕ) (d : ℚ) (z : ℕ) :
    ∀ n : ℕ, ((List.range n).flatMap (clothCellSprings s W H d z)).length =
      min (W - 1) n + n * (if z < H - 1 then 1 else 0) := by
  intro n
  induction n with
  | zero => simp
  | succ m ih =>
    rw [List.range_succ, List.flatMap_append]
    simp only [List.flatMap_cons, List.flatMap_nil, List.append_nil, List.length_append, ih,
      clothCellSprings]
    by_cases hm : m < W - 1 <;> by_cases hz : z < H - 1 <;>
      simp [hm, hz] <;> omega

theorem length_cloth_springs (s W H : ℕ) (d : ℚ) :
    ∀ n : ℕ, ((List.range n).flatMap fun z =>
        (List.range W).flatMap (clothCellSprings s W H d z)).length =
      n * (W - 1) + W * min (H - 1) n := by
  intro n
  induction n with
  | zero => simp
  | succ m ih =>
    rw [List.range_succ, List.flatMap_append]
    simp only [List.flatMap_cons, List.flatMap_nil, List.append_nil, List.length_append, ih,
      length_flatMap_cell]
    have hmin : min (W - 1) W = W - 1 := by omega
    rw [hmin]
    by_cases hz : m < H - 1
    · have h1 : min (H - 1) m = m := by omega
      have h2 : min (H - 1) (m + 1) = m + 1 := by omega
      rw [h1, h2]
      simp only [hz, if_true]
      ring
    · have h1 : min (H - 1) m = H - 1 := by omega
      have h2 : min (H - 1) (m + 1) = H - 1 := by omega
      rw [h1, h2]
      simp only [hz, if_false]
      ring

theorem rest_length_cloth_springs (s W H : ℕ) (d : ℚ) (n : ℕ) :
    ∀ spr ∈ (List.range n).flatMap fun z =>
        (List.range W).flatMap (clothCellSprings s W H d z),
      spr.rest_length = d := by
  intro spr hmem
  simp only [List.mem_flatMap, List.mem_range] at hmem
  obtain ⟨z, _, x, _, hcell⟩ := hmem
  simp only [clothCellSprings, List.mem_append] at hcell
  rcases hcell with h | h <;> split at h <;> simp_all

/-! ## C1: cloth grid construction -/

/-- **C1.** `create_cloth(W, H, d, offset)` with `W, H ≥ 1`, `d > 0` appends
exactly `W*H` particles and `(W-1)*H + W*(H-1)` springs, every appended
spring has rest length `d`, and the appended particle at grid cell `(z, x)`
is pinned with zero inverse mass exactly when `z = 0` and `x ∈ {0, W-1}`,
all other appended particles having unit mass and unit inverse mass. -/
theorem create_cloth_spec (sb : SoftBody) (W H : ℕ) (d : ℚ) (offset : Vec3)
    (hW : 1 ≤ W) (hH : 1 ≤ H) (hd : 0 < d) :
    (sb.create_cloth W H d offset).particles.length = sb.particles.length + W * H ∧
    (sb.create_cloth W H d offset).springs.length =
      sb.springs.length + ((W - 1) * H + W * (H - 1)) ∧
    (∀ s ∈ (sb.create_cloth W H d offset).springs.drop sb.springs.length,
      s.rest_length = d) ∧
    (∀ z x, z < H → x < W →
      ((sb.create_cloth W H d offset).particles.getD
          (sb.particles.length + (z * W + x)) defaultParticle).pinned =
        (decide (z = 0 ∧ (x = 0 ∨ x = W - 1))) ∧
      (((sb.create_cloth W H d offset).particles.getD
          (sb.particles.length + (z * W + x)) defaultParticle).pinned = true →
        ((sb.create_cloth W H d offset).particles.getD
          (sb.particles.length + (z * W + x)) defaultParticle).inv_mass = 0) ∧
      (((sb.create_cloth W H d offset).particles.getD
          (sb.particles.length + (z * W + x)) defaultParticle).pinned = false →
        ((sb.create_cloth W H d offset).particles.getD
          (sb.particles.length + (z * W + x)) defaultParticle).mass = 1 ∧
        ((sb.create_cloth W H d offset).particles.getD
          (sb.particles.length + (z * W + x)) defaultParticle).inv_mass = 1)) := by
  refine ⟨?_, ?_, ?_, ?_⟩
  · simp only [SoftBody.create_cloth, List.length_append, length_flatMap_map_range]
    rw [Nat.mul_comm]
  · simp only [SoftBody.create_cloth, List.length_append, length_cloth_springs]
    have : min (H - 1) H = H - 1 := by omega
    rw [this]
    ring
  · intro s hs
    rw [SoftBody.create_cloth] at hs
    simp only [List.drop_left] at hs
    exact rest_length_cloth_springs _ W H d H s hs
  · intro z x hz hx
    have hget : (sb.create_cloth W H d offset).particles.getD
        (sb.particles.length + (z * W + x)) defaultParticle =
        clothParticle W d offset z x := by
      simp only [SoftBody.create_cloth, List.getD_eq_getElem?_getD]
      rw [List.getElem?_append_right (by omega)]
      have : sb.particles.length + (z * W + x) - sb.particles.length = z * W + x := by omega
      rw [this, getElem_flatMap_map_range W _ H z x hz hx]
      rfl
    rw [hget]
    unfold clothParticle Particle.new
    by_cases hcond : z = 0 ∧ (x = 0 ∨ x = W - 1)
    · simp [hcond]
    · simp only [hcond, if_false, decide_eq_true_eq]
      norm_num [hcond]

/-- Witness for C1 at `W = H = 2`, `d = 1`, zero offset, empty body. -/
theorem create_cloth_spec_witness :
    (SoftBody.new.create_cloth 2 2 1 Vec3.zero).particles.length =
      SoftBody.new.particles.length + 2 * 2 ∧
    (SoftBody.new.create_cloth 2 2 1 Vec3.zero).springs.length =
      SoftBody.new.springs.length + ((2 - 1) * 2 + 2 * (2 - 1)) ∧
    (∀ s ∈ (SoftBody.new.create_cloth 2 2 1 Vec3.zero).springs.drop
        SoftBody.new.springs.length, s.rest_length = 1) ∧
    (∀ z x, z < 2 → x < 2 →
      ((SoftBody.new.create_cloth 2 2 1 Vec3.zero).particles.getD
          (SoftBody.new.particles.length + (z * 2 + x)) defaultParticle).pinned =
        (decide (z = 0 ∧ (x = 0 ∨ x = 2 - 1))) ∧
      (((SoftBody.new.create_cloth 2 2 1 Vec3.zero).particles.getD
          (SoftBody.new.particles.length + (z * 2 + x)) defaultParticle).pinned = true →
        ((SoftBody.new.create_cloth 2 2 1 Vec3.zero).particles.getD
          (SoftBody.new.particles.length + (z * 2 + x)) defaultParticle).inv_mass = 0) ∧
      (((SoftBody.new.create_cloth 2 2 1 Vec3.zero).particles.getD
          (SoftBody.new.particles.length + (z * 2 + x)) defaultParticle).pinned = false →
        ((SoftBody.new.create_cloth 2 2 1 Vec3.zero).particles.getD
          (SoftBody.new.particles.length + (z * 2 + x)) defaultParticle).mass = 1 ∧
        ((SoftBody.new.create_cloth 2 2 1 Vec3.zero).particles.getD
          (SoftBody.new.particles.length + (z * 2 + x)) defaultParticle).inv_mass = 1)) :=
  create_cloth_spec SoftBody.new 2 2 1 Vec3.zero (by decide) (by decide) (by norm_num)

/-! ## C2: pinned particles are untouched by `step` -/

theorem pinned_preserved_by_cond_update (cs qs : List Particle) (i j : ℕ)
    (p : Particle) (g : Particle → Particle)
    (hcs : cs[i]? = some p) (hqs : qs[i]? = some p) (hp : p.pinned = true) :
    (if (getP cs j).pinned then qs else updAt qs j g)[i]? = some p := by
  by_cases hj : (getP cs j).pinned
  · simpa [hj]
  · have hji : j ≠ i := by
      intro e
      subst e
      have hg : getP cs j = p := by
        simp [getP, hcs]
      rw [hg, hp] at hj
      exact hj rfl
    simp only [Bool.not_eq_true] at hj
    simp only [hj, Bool.false_eq_true, if_false, updAt]
    rw [List.getElem?_set_ne hji]
    exact hqs

theorem relaxSpring_preserves_pinned (sqrtFn : ℚ → ℚ) (ps : List Particle)
    (s : Spring) (i : ℕ) (p : Particle)
    (h : ps[i]? = some p) (hp : p.pinned = true) :
    (relaxSpring sqrtFn ps s)[i]? = some p := by
  rw [relaxSpring]
  split
  · exact h
  · exact pinned_preserved_by_cond_update ps _ i s.p2 p _ h
      (pinned_preserved_by_cond_update ps ps i s.p1 p _ h h hp) hp

theorem relaxIteration_preserves_pinned (sqrtFn : ℚ → ℚ) (springs : List Spring)
    (i : ℕ) (p : Particle) (hp : p.pinned = true) :
    ∀ ps : List Particle, ps[i]? = some p →
      (relaxIteration sqrtFn springs ps)[i]? = some p := by
  induction springs with
  | nil => intro ps h; exact h
  | cons s rest ih =>
    intro ps h
    exact ih (relaxSpring sqrtFn ps s)
      (relaxSpring_preserves_pinned sqrtFn ps s i p h hp)

/-- **C2.** For every soft body, pinned particle and call to `SoftBody::step`
(any `dt`, gravity, square root and collider-query state), the pinned
particle is untouched: its whole record (in particular position and
velocity) after the step equals the one before. -/
theorem step_preserves_pinned (sb : SoftBody) (dt : ℚ) (gravity : Vec3)
    (sqrtFn : ℚ → ℚ) (query : Vec3 → Option (Vec3 × Bool)) (i : ℕ) (p : Particle)
    (h : sb.particles[i]? = some p) (hp : p.pinned = true) :
    (sb.step dt gravity sqrtFn query).particles[i]? = some p := by
  have h1 : (gravityPhase dt gravity sb.particles)[i]? = some p := by
    simp [gravityPhase, List.getElem?_map, h, hp]
  have h2 : (relaxPhase sqrtFn sb.springs (gravityPhase dt gravity sb.particles))[i]? =
      some p :=
    relaxIteration_preserves_pinned sqrtFn sb.springs i p hp _
      (relaxIteration_preserves_pinned sqrtFn sb.springs i p hp _ h1)
  simp only [SoftBody.step, List.getElem?_map, h2]
  simp [integrateParticle, hp]

/-- Concrete soft body for the C2 witness: a pinned anchor joined by a
spring to a free particle. -/
def sbC2 : SoftBody :=
  { particles :=
      [{ position := ⟨0, 0, 0⟩, velocity := ⟨0, 0, 0⟩, mass := 1, inv_mass := 0,
         pinned := true },
       Particle.new 3 4 0 1]
    springs := [⟨0, 1, 1, 100, 1 / 2⟩] }

/-- Witness for C2: stepping `sbC2` under gravity leaves the pinned anchor
exactly as it was. -/
theorem step_preserves_pinned_witness :
    (sbC2.step 1 ⟨0, -10, 0⟩ Rat.sqrt (fun _ => none)).particles[0]? =
      some { position := ⟨0, 0, 0⟩, velocity := ⟨0, 0, 0⟩, mass := 1, inv_mass := 0,
             pinned := true } :=
  step_preserves_pinned sbC2 1 ⟨0, -10, 0⟩ Rat.sqrt (fun _ => none) 0 _ rfl rfl

/-! ## C5: degenerate springs are skipped -/

/-- **C5.** A spring whose endpoints are separated by a computed distance
strictly below `1e-4` is skipped for that relaxation pass: the particle
array is returned unchanged (no position or velocity of either endpoint is
modified), and the `diff = (dist - rest)/dist` division is never reached
for such a spring (the embedding is total, mirroring the guarded source). -/
theorem relaxSpring_skips_degenerate (sqrtFn : ℚ → ℚ) (ps : List Particle)
    (s : Spring)
    (h : sqrtFn (normSq ((getP ps s.p2).position - (getP ps s.p1).position)) <
      1 / 10000) :
    relaxSpring sqrtFn ps s = ps := by
  rw [relaxSpring]
  exact if_pos h

/-- Two coincident particles joined by a spring. -/
def psC5 : List Particle := [Particle.new 2 3 4 1, Particle.new 2 3 4 1]

/-- Witness for C5: the zero-length spring between the coincident particles
of `psC5` leaves the particle list untouched. -/
theorem relaxSpring_skips_degenerate_witness :
    relaxSpring Rat.sqrt psC5 ⟨0, 1, 1, 100, 1 / 2⟩ = psC5 :=
  relaxSpring_skips_degenerate Rat.sqrt psC5 ⟨0, 1, 1, 100, 1 / 2⟩ (by
    norm_num [getP, psC5, Particle.new, normSq, defaultParticle])

/-! ## C10: stiffness and damping fields are never read by `step` -/

theorem relaxSpring_congr (sqrtFn : ℚ → ℚ) (ps : List Particle) (s t : Spring)
    (h1 : s.p1 = t.p1) (h2 : s.p2 = t.p2) (h3 : s.rest_length = t.rest_length) :
    relaxSpring sqrtFn ps s = relaxSpring sqrtFn ps t := by
  cases s
  cases t
  simp only at h1 h2 h3
  subst h1
  subst h2
  subst h3
  rfl

/-- The relation "same endpoints and rest length" on springs. -/
def SpringShapeEq (s t : Spring) : Prop :=
  s.p1 = t.p1 ∧ s.p2 = t.p2 ∧ s.rest_length = t.rest_length

theorem relaxIteration_congr (sqrtFn : ℚ → ℚ) (springs1 springs2 : List Spring)
    (hsp : List.Forall₂ SpringShapeEq springs1 springs2) :
    ∀ ps : List Particle,
      relaxIteration sqrtFn springs1 ps = relaxIteration sqrtFn springs2 ps := by
  induction hsp with
  | nil => intro ps; rfl
  | cons hst hrest ih =>
    intro ps
    show relaxIteration sqrtFn _ (relaxSpring sqrtFn ps _) =
      relaxIteration sqrtFn _ (relaxSpring sqrtFn ps _)
    rw [relaxSpring_congr sqrtFn ps _ _ hst.1 hst.2.1 hst.2.2]
    exact ih _

/-- **C10.** `SoftBody::step` never reads a spring's stiffness or damping
field: two bodies with identical particles and springs that agree on
endpoints and rest length (stiffness and damping arbitrary) step to
identical particle states for every `dt`, gravity, square root and
collider query. -/
theorem step_ignores_stiffness_damping (sb1 sb2 : SoftBody) (dt : ℚ)
    (gravity : Vec3) (sqrtFn : ℚ → ℚ) (query : Vec3 → Option (Vec3 × Bool))
    (hps : sb1.particles = sb2.particles)
    (hsp : List.Forall₂ SpringShapeEq sb1.springs sb2.springs) :
    (sb1.step dt gravity sqrtFn query).particles =
      (sb2.step dt gravity sqrtFn query).particles := by
  simp only [SoftBody.step]
  rw [hps, relaxPhase, relaxPhase, relaxIteration_congr sqrtFn _ _ hsp,
    relaxIteration_congr sqrtFn _ _ hsp]

/-- Body with spring stiffness 100 and damping 1/2. -/
def sbC10a : SoftBody :=
  { particles := [Particle.new 0 0 0 1, Particle.new 3 4 0 1]
    springs := [⟨0, 1, 1, 100, 1 / 2⟩] }

/-- Same body except the spring has absurd stiffness 7 and damping 9. -/
def sbC10b : SoftBody :=
  { particles := [Particle.new 0 0 0 1, Particle.new 3 4 0 1]
    springs := [⟨0, 1, 1, 7, 9⟩] }

/-- Witness for C10: the two bodies step to identical particle states. -/
theorem step_ignores_stiffness_damping_witness :
    (sbC10a.step 1 ⟨0, -10, 0⟩ Rat.sqrt (fun _ => none)).particles =
      (sbC10b.step 1 ⟨0, -10, 0⟩ Rat.sqrt (fun _ => none)).particles :=
  step_ignores_stiffness_damping sbC10a sbC10b 1 ⟨0, -10, 0⟩ Rat.sqrt
    (fun _ => none) rfl
    (List.forall₂_cons.mpr ⟨⟨rfl, rfl, rfl⟩, List.Forall₂.nil⟩)

/-! ## C3: floor clamp (corrected) -/

/-- Particle used in the C3 counterexample: falling straight down through
the floor. -/
def pC3 : Particle :=
  { position := ⟨0, 0, 0⟩, velocity := ⟨0, -1, 0⟩, mass := 1, inv_mass := 1,
    pinned := false }

/-- Query used in the C3 counterexample: a collider whose closest surface
point is slightly above the floor and which reports the clamped point as
interior. -/
def qC3 : Vec3 → Option (Vec3 × Bool) := fun _ => some (⟨0, 1 / 20, 0⟩, true)

/-- **C3 counterexample.** The claim "tentative Y < 0 implies post-step
position.y = 0" is false: for `pC3` the tentative position has `y = -1 < 0`,
yet the collider response moves the committed position to `y = 1/20 ≠ 0`. -/
theorem floor_clamp_counterexample :
    pC3.pinned = false ∧
    (pC3.position + (1 : ℚ) • pC3.velocity).y < 0 ∧
    (integrateParticle 1 Rat.sqrt qC3 pC3).position.y ≠ 0 := by
  refine ⟨rfl, by norm_num [pC3], ?_⟩
  norm_num [integrateParticle, tentative, pC3, qC3]

/-- **C3 amended.** For a non-pinned particle whose tentative next position
has `Y < 0`: the post-phase vertical velocity is always `0` (every later
damping multiplies the already-zeroed component), and when the collider
query at the floor-clamped point returns no result the committed position
has `Y = 0` and both horizontal velocity components are exactly the old
ones multiplied by `0.9`. -/
theorem floor_clamp_amended (dt : ℚ) (sqrtFn : ℚ → ℚ)
    (query : Vec3 → Option (Vec3 × Bool)) (p : Particle)
    (hpin : p.pinned = false)
    (hy : (p.position + dt • p.velocity).y < 0) :
    (integrateParticle dt sqrtFn query p).velocity.y = 0 ∧
    (query ⟨(p.position + dt • p.velocity).x, 0, (p.position + dt • p.velocity).z⟩ =
        none →
      (integrateParticle dt sqrtFn query p).position.y = 0 ∧
      (integrateParticle dt sqrtFn query p).velocity.x = 9 / 10 * p.velocity.x ∧
      (integrateParticle dt sqrtFn query p).velocity.z = 9 / 10 * p.velocity.z) := by
  have ht : tentative dt p =
      (⟨(p.position + dt • p.velocity).x, 0, (p.position + dt • p.velocity).z⟩,
       ⟨9 / 10 * p.velocity.x, 0, 9 / 10 * p.velocity.z⟩) := by
    rw [tentative, if_pos hy]
  rw [integrateParticle, hpin]
  simp only [Bool.false_eq_true, if_false, ht]
  constructor
  · cases hq : query ⟨(p.position + dt • p.velocity).x, 0,
        (p.position + dt • p.velocity).z⟩ with
    | none => simp [hq]
    | some pr =>
      obtain ⟨pp, inside⟩ := pr
      cases inside with
      | true => simp [hq]
      | false =>
        simp only [Prod.fst, Prod.snd, hq, Bool.false_eq_true, if_false]
        split <;> simp
  · intro hqnone
    simp only [Vec3.add_x, Vec3.add_z, Vec3.smul_x, Vec3.smul_z] at hqnone
    simp [hqnone]

/-- Particle for the C3 amended witness: same fall, but no collider nearby. -/
theorem floor_clamp_amended_witness :
    (integrateParticle 1 Rat.sqrt (fun _ => none) pC3).velocity.y = 0 ∧
    ((fun _ : Vec3 => (none : Option (Vec3 × Bool)))
        ⟨(pC3.position + (1 : ℚ) • pC3.velocity).x, 0,
          (pC3.position + (1 : ℚ) • pC3.velocity).z⟩ = none →
      (integrateParticle 1 Rat.sqrt (fun _ => none) pC3).position.y = 0 ∧
      (integrateParticle 1 Rat.sqrt (fun _ => none) pC3).velocity.x =
        9 / 10 * pC3.velocity.x ∧
      (integrateParticle 1 Rat.sqrt (fun _ => none) pC3).velocity.z =
        9 / 10 * pC3.velocity.z) :=
  floor_clamp_amended 1 Rat.sqrt (fun _ => none) pC3 rfl (by norm_num [pC3])

/-! ## C4: collider response cases -/

/-- **C4.** In the integration/collision phase, for every non-pinned
particle: a query reporting the tentative point inside a collider snaps the
position to the reported surface point and halves the velocity; a query
reporting a surface point at distance below the particle radius `0.1`
pushes the tentative position out along the normalized surface-to-point
vector by the deficit `0.1 - dist` and multiplies the velocity by `0.9`;
a query returning nothing commits the tentative state unmodified. -/
theorem collision_cases (dt : ℚ) (sqrtFn : ℚ → ℚ)
    (query : Vec3 → Option (Vec3 × Bool)) (p : Particle)
    (hpin : p.pinned = false) :
    (query (tentative dt p).1 = none →
      integrateParticle dt sqrtFn query p =
        { p with position := (tentative dt p).1, velocity := (tentative dt p).2 }) ∧
    (∀ sp : Vec3, query (tentative dt p).1 = some (sp, true) →
      integrateParticle dt sqrtFn query p =
        { p with position := sp,
                 velocity := ((1 : ℚ) / 2) • (tentative dt p).2 }) ∧
    (∀ sp : Vec3, query (tentative dt p).1 = some (sp, false) →
      sqrtFn (normSq ((tentative dt p).1 - sp)) < 1 / 10 →
      integrateParticle dt sqrtFn query p =
        { p with
            position := (tentative dt p).1 +
              ((1 : ℚ) / 10 - sqrtFn (normSq ((tentative dt p).1 - sp))) •
                ((1 / sqrtFn (normSq ((tentative dt p).1 - sp))) •
                  ((tentative dt p).1 - sp))
            velocity := ((9 : ℚ) / 10) • (tentative dt p).2 }) := by
  refine ⟨?_, ?_, ?_⟩
  · intro hq
    rw [integrateParticle, hpin]
    simp only [Bool.false_eq_true, if_false, hq]
  · intro sp hq
    rw [integrateParticle, hpin]
    simp only [Bool.false_eq_true, if_false, hq, if_pos]
  · intro sp hq hd
    rw [integrateParticle, hpin]
    simp only [Bool.false_eq_true, if_false, hq, if_pos hd]

/-- Particle for the C4 witness. -/
def pC4 : Particle :=
  { position := ⟨0, 5, 0⟩, velocity := ⟨1, 0, 0⟩, mass := 1, inv_mass := 1,
    pinned := false }

/-- Witness for C4 (empty-query case): with no collider reported, the
tentative state is committed unmodified. -/
theorem collision_cases_witness :
    integrateParticle 1 Rat.sqrt (fun _ => none) pC4 =
      { pC4 with position := (tentative 1 pC4).1, velocity := (tentative 1 pC4).2 } :=
  (collision_cases 1 Rat.sqrt (fun _ => none) pC4 rfl).1 rfl

/-! ## Embedding of `physics.rs`: render data and the object registry -/

/-- The observable state of one rapier rigid body as read by
`get_render_data`: the arena handle, `body.translation()` and
`body.rotation()` (quaternion components `i, j, k, w`). -/
structure RigidBodyState where
  handle : ℕ
  translation : Vec3
  qi : ℚ
  qj : ℚ
  qk : ℚ
  qw : ℚ
deriving DecidableEq, Repr

/-- One salva fluid: its particle positions. -/
structure FluidState where
  positions : List Vec3
deriving DecidableEq, Repr

/-- The part of `PhysicsWorld` read by `get_render_data`: the rigid-body
set in iteration order, the fluids of `liquid_world`, and the
`object_types` HashMap as a key-value list (the source only uses `get`
and `insert`-with-a-fresh-key, where association-list semantics agree
with the HashMap). -/
structure RenderWorld where
  rigidBodies : List RigidBodyState
  fluids : List FluidState
  objectTypes : List (ℕ × ℕ)
deriving DecidableEq, Repr

/-- `self.object_types.get(&handle).copied().unwrap_or(0)`. -/
def lookupType (m : List (ℕ × ℕ)) (h : ℕ) : ℕ := (m.lookup h).getD 0

/-- The eight floats pushed for one rigid body:
`[pos.x, pos.y, pos.z, rot.i, rot.j, rot.k, rot.w, obj_type]`. -/
def rigidRecord (m : List (ℕ × ℕ)) (b : RigidBodyState) : List ℚ :=
  [b.translation.x, b.translation.y, b.translation.z, b.qi, b.qj, b.qk, b.qw,
   (lookupType m b.handle : ℚ)]

/-- The eight floats pushed for one fluid particle: position, the unused
identity quaternion `(0,0,0,1)`, and type tag `2.0` (liquid). -/
def fluidRecord (p : Vec3) : List ℚ := [p.x, p.y, p.z, 0, 0, 0, 1, 2]

/-- `PhysicsWorld::get_render_data`: the rigid-body records in iteration
order, then one record per particle of every fluid. -/
def get_render_data (w : RenderWorld) : List ℚ :=
  w.rigidBodies.flatMap (rigidRecord w.objectTypes) ++
    w.fluids.flatMap fun f => f.positions.flatMap fluidRecord

/-- All fluid particles of the world, in render order. -/
def allFluidPositions (w : RenderWorld) : List Vec3 :=
  w.fluids.flatMap fun f => f.positions

theorem length_flatMap_const8 {α : Type} (g : α → List ℚ)
    (h8 : ∀ a, (g a).length = 8) :
    ∀ l : List α, (l.flatMap g).length = 8 * l.length := by
  intro l
  induction l with
  | nil => simp
  | cons b t ih => simp [ih, h8, Nat.mul_succ, Nat.add_comm]

theorem drop_append_len {α : Type} :
    ∀ (pre rest : List α) (n : ℕ), (pre ++ rest).drop (pre.length + n) = rest.drop n := by
  intro pre
  induction pre with
  | nil => intro rest n; simp
  | cons a t ih =>
    intro rest n
    simp only [List.cons_append, List.length_cons]
    have : t.length + 1 + n = (t.length + n) + 1 := by omega
    rw [this, List.drop_succ_cons, ih]

theorem flatMap_slice {α : Type} (g : α → List ℚ) (h8 : ∀ a, (g a).length = 8) :
    ∀ (l : List α) (tail : List ℚ) (i : ℕ) (a : α), l[i]? = some a →
      ((l.flatMap g ++ tail).drop (8 * i)).take 8 = g a := by
  intro l
  induction l with
  | nil => intro tail i a h; simp at h
  | cons b t ih =>
    intro tail i a h
    cases i with
    | zero =>
      simp only [List.getElem?_cons_zero, Option.some_inj] at h
      subst h
      simp only [Nat.mul_zero, List.drop_zero, List.flatMap_cons, List.append_assoc]
      exact List.take_left' (h8 _)
    | succ j =>
      simp only [List.getElem?_cons_succ] at h
      simp only [List.flatMap_cons, List.append_assoc]
      have hlen : 8 * (j + 1) = (g b).length + 8 * j := by rw [h8]; ring
      rw [hlen, drop_append_len]
      exact ih tail j a h

/-- **C7.** The flattened render buffer has exactly `(N + M) * 8` floats
for `N` rigid bodies and `M` fluid particles; the `i`-th 8-float record is
the record of the `i`-th rigid body `[x, y, z, qx, qy, qz, qw, type]`, and
the `(N + j)`-th record belongs to the `j`-th fluid particle and carries
the identity quaternion `(0,0,0,1)` and the liquid tag `2`. -/
theorem get_render_data_shape (w : RenderWorld) :
    (get_render_data w).length =
      (w.rigidBodies.length + (allFluidPositions w).length) * 8 ∧
    (∀ i b, w.rigidBodies[i]? = some b →
      ((get_render_data w).drop (8 * i)).take 8 = rigidRecord w.objectTypes b) ∧
    (∀ j p, (allFluidPositions w)[j]? = some p →
      ((get_render_data w).drop (8 * (w.rigidBodies.length + j))).take 8 =
        [p.x, p.y, p.z, 0, 0, 0, 1, 2]) := by
  have hfluid : (w.fluids.flatMap fun f => f.positions.flatMap fluidRecord) =
      (allFluidPositions w).flatMap fluidRecord := by
    rw [allFluidPositions, List.flatMap_assoc]
  refine ⟨?_, ?_, ?_⟩
  · rw [get_render_data, List.length_append, hfluid,
      length_flatMap_const8 (rigidRecord w.objectTypes) (fun b => rfl) w.rigidBodies,
      length_flatMap_const8 fluidRecord (fun p => rfl) (allFluidPositions w)]
    ring
  · intro i b hb
    rw [get_render_data]
    exact flatMap_slice (rigidRecord w.objectTypes) (fun b => rfl) w.rigidBodies _ i b hb
  · intro j p hp
    rw [get_render_data, hfluid]
    have hlen : 8 * (w.rigidBodies.length + j) =
        (w.rigidBodies.flatMap (rigidRecord w.objectTypes)).length + 8 * j := by
      rw [length_flatMap_const8 (rigidRecord w.objectTypes) (fun b => rfl) w.rigidBodies]
      ring
    rw [hlen, drop_append_len]
    have := flatMap_slice fluidRecord (fun p => rfl) (allFluidPositions w) [] j p hp
    rw [List.append_nil] at this
    exact this

/-- Concrete world for the C7 witness: one rigid body, one fluid with one
particle. -/
def wC7 : RenderWorld :=
  { rigidBodies := [⟨0, ⟨1, 2, 3⟩, 0, 0, 0, 1⟩]
    fluids := [⟨[⟨4, 5, 6⟩]⟩]
    objectTypes := [(0, 1)] }

/-- Witness for C7: both slice conjuncts applied at index 0 of `wC7`. -/
theorem get_render_data_shape_witness :
    ((get_render_data wC7).drop (8 * 0)).take 8 =
      rigidRecord wC7.objectTypes ⟨0, ⟨1, 2, 3⟩, 0, 0, 0, 1⟩ ∧
    ((get_render_data wC7).drop (8 * (wC7.rigidBodies.length + 0))).take 8 =
      [(4 : ℚ), 5, 6, 0, 0, 0, 1, 2] :=
  ⟨(get_render_data_shape wC7).2.1 0 _ rfl,
   (get_render_data_shape wC7).2.2 0 ⟨4, 5, 6⟩ rfl⟩

/-! ## Embedding of the spawn operations and the object registry -/

/-- What kind of rigid body a spawn created. -/
inductive BodyKind
  | box
  | sphere
  | floorBody
deriving DecidableEq, Repr

/-- The type tag registered at spawn time: `0` for `spawn_box` and
`spawn_floor` (the floor is also a cuboid), `1` for `spawn_sphere`. -/
def tagOf : BodyKind → ℕ
  | .box => 0
  | .sphere => 1
  | .floorBody => 0

/-- `HashMap::insert`: replaces the value at an existing key, otherwise
adds a new entry. -/
def insertType (m : List (ℕ × ℕ)) (h t : ℕ) : List (ℕ × ℕ) :=
  if (m.lookup h).isSome then m.map fun kv => if kv.1 = h then (h, t) else kv
  else m ++ [(h, t)]

/-- Abstraction of `PhysicsWorld` for the registry claims: the rapier
arena hands out a fresh handle at every insert and nothing in this wrapper
ever removes a body, so handles are modelled by an insertion counter;
`bodies` is the rigid-body set (handle and spawned kind) and
`objectTypes` the registry. -/
structure PWorld where
  nextHandle : ℕ
  bodies : List (ℕ × BodyKind)
  objectTypes : List (ℕ × ℕ)
deriving DecidableEq, Repr

/-- `PhysicsWorld::new`: empty rigid-body set, empty registry. -/
def PWorld.init : PWorld := ⟨0, [], []⟩

/-- `PhysicsWorld::spawn_box` (the position does not affect the registry):
insert the body, then `object_types.insert(body_handle, 0)`. -/
def PWorld.spawn_box (w : PWorld) : PWorld :=
  { nextHandle := w.nextHandle + 1
    bodies := w.bodies ++ [(w.nextHandle, BodyKind.box)]
    objectTypes := insertType w.objectTypes w.nextHandle 0 }

/-- `PhysicsWorld::spawn_floor`: `object_types.insert(body_handle, 0)`. -/
def PWorld.spawn_floor (w : PWorld) : PWorld :=
  { nextHandle := w.nextHandle + 1
    bodies := w.bodies ++ [(w.nextHandle, BodyKind.floorBody)]
    objectTypes := insertType w.objectTypes w.nextHandle 0 }

/-- `PhysicsWorld::spawn_sphere`: `object_types.insert(body_handle, 1)`. -/
def PWorld.spawn_sphere (w : PWorld) : PWorld :=
  { nextHandle := w.nextHandle + 1
    bodies := w.bodies ++ [(w.nextHandle, BodyKind.sphere)]
    objectTypes := insertType w.objectTypes w.nextHandle 1 }

/-- `PhysicsWorld::spawn_liquid` only adds particles to the persistent
fluid; the rigid-body set and the registry are untouched. -/
def PWorld.spawn_liquid (w : PWorld) : PWorld := w

/-- `PhysicsWorld::step` advances the rigid and fluid pipelines; it
neither adds nor removes bodies or registry entries. -/
def PWorld.tick (w : PWorld) : PWorld := w

/-- The operations of the `PhysicsWorld` facade touched by the registry. -/
inductive WOp
  | box
  | sphere
  | floorOp
  | liquid
  | tickOp
deriving DecidableEq, Repr

def applyOp (w : PWorld) : WOp → PWorld
  | .box => w.spawn_box
  | .sphere => w.spawn_sphere
  | .floorOp => w.spawn_floor
  | .liquid => w.spawn_liquid
  | .tickOp => w.tick

def applyOps (w : PWorld) (ops : List WOp) : PWorld := ops.foldl applyOp w

/-- Registry invariant maintained by every operation: the registry is
exactly the body list with each kind replaced by its tag, all handles are
below the allocation counter, and handles are pairwise distinct. -/
def RegInv (w : PWorld) : Prop :=
  w.objectTypes = w.bodies.map (fun bk => (bk.1, tagOf bk.2)) ∧
  (∀ hk ∈ w.bodies, hk.1 < w.nextHandle) ∧
  (w.bodies.map Prod.fst).Nodup

theorem lookup_none_of_lt (n : ℕ) :
    ∀ m : List (ℕ × ℕ), (∀ kv ∈ m, kv.1 < n) → m.lookup n = none := by
  intro m
  induction m with
  | nil => intro _; rfl
  | cons kv t ih =>
    intro hall
    have hk : kv.1 < n := hall kv (List.mem_cons_self kv t)
    have hne : (n == kv.1) = false := by
      simp only [beq_eq_false_iff_ne, ne_eq]
      omega
    obtain ⟨k, v⟩ := kv
    rw [List.lookup_cons]
    simp only at hne
    rw [hne]
    exact ih fun kv h => hall kv (List.mem_cons_of_mem _ h)

theorem regInv_applyOp (w : PWorld) (op : WOp) (h : RegInv w) :
    RegInv (applyOp w op) := by
  obtain ⟨hreg, hlt, hnd⟩ := h
  have hlook : w.objectTypes.lookup w.nextHandle = none := by
    apply lookup_none_of_lt
    intro kv hkv
    rw [hreg] at hkv
    simp only [List.mem_map] at hkv
    obtain ⟨bk, hbk, hekv⟩ := hkv
    have := hlt bk hbk
    rw [← hekv]
    exact this
  have hins : ∀ t : ℕ, insertType w.objectTypes w.nextHandle t =
      w.objectTypes ++ [(w.nextHandle, t)] := by
    intro t
    rw [insertType, hlook]
    simp
  have fresh : ∀ (kind : BodyKind),
      RegInv { nextHandle := w.nextHandle + 1
               bodies := w.bodies ++ [(w.nextHandle, kind)]
               objectTypes := insertType w.objectTypes w.nextHandle (tagOf kind) } := by
    intro kind
    refine ⟨?_, ?_, ?_⟩
    · show insertType w.objectTypes w.nextHandle (tagOf kind) = _
      rw [hins, hreg, List.map_append]
      rfl
    · intro hk hmem
      show hk.1 < w.nextHandle + 1
      simp only [List.mem_append, List.mem_singleton] at hmem
      rcases hmem with hmem | hmem
      · have := hlt hk hmem
        omega
      · subst hmem
        omega
    · show ((w.bodies ++ [(w.nextHandle, kind)]).map Prod.fst).Nodup
      simp only [List.map_append, List.map_cons, List.map_nil]
      rw [List.nodup_append]
      refine ⟨hnd, List.nodup_singleton _, ?_⟩
      intro a ha hb
      simp only [List.mem_singleton] at hb
      subst hb
      simp only [List.mem_map] at ha
      obtain ⟨bk, hbk, hfst⟩ := ha
      have := hlt bk hbk
      omega
  cases op with
  | box => exact fresh BodyKind.box
  | sphere => exact fresh BodyKind.sphere
  | floorOp => exact fresh BodyKind.floorBody
  | liquid => exact ⟨hreg, hlt, hnd⟩
  | tickOp => exact ⟨hreg, hlt, hnd⟩

theorem regInv_applyOps (ops : List WOp) :
    ∀ w : PWorld, RegInv w → RegInv (applyOps w ops) := by
  induction ops with
  | nil => intro w h; exact h
  | cons op rest ih =>
    intro w h
    exact ih (applyOp w op) (regInv_applyOp w op h)

theorem lookup_map_tag (h : ℕ) (k : BodyKind) :
    ∀ bodies : List (ℕ × BodyKind), (h, k) ∈ bodies →
      (bodies.map Prod.fst).Nodup →
      (bodies.map (fun bk => (bk.1, tagOf bk.2))).lookup h = some (tagOf k) := by
  intro bodies
  induction bodies with
  | nil => intro hmem; simp at hmem
  | cons bk t ih =>
    intro hmem hnd
    obtain ⟨h1, k1⟩ := bk
    simp only [List.map_cons, List.nodup_cons] at hnd
    rcases List.mem_cons.mp hmem with heq | hmem'
    · injection heq with e1 e2
      subst e1
      subst e2
      simp [List.lookup_cons]
    · have hne : h ≠ h1 := by
        intro e
        subst e
        exact hnd.1 (List.mem_map.mpr ⟨(h, k), hmem', rfl⟩)
      simp only [List.map_cons, List.lookup_cons]
      have hbeq : (h == h1) = false := beq_eq_false_iff_ne.mpr hne
      rw [hbeq]
      exact ih hmem' hnd.2

theorem count_map_fst_eq_one (h : ℕ) (w : PWorld) (hinv : RegInv w)
    (hmem : h ∈ w.bodies.map Prod.fst) :
    (w.objectTypes.map Prod.fst).count h = 1 := by
  obtain ⟨hreg, _, hnd⟩ := hinv
  have hfst : w.objectTypes.map Prod.fst = w.bodies.map Prod.fst := by
    rw [hreg, List.map_map]
    rfl
  rw [hfst]
  exact List.count_eq_one_of_mem hnd hmem

theorem lookup_isSome_map_replace (h h' t : ℕ) :
    ∀ m : List (ℕ × ℕ),
      ((m.map fun kv => if kv.1 = h' then (h', t) else kv).lookup h).isSome =
        (m.lookup h).isSome := by
  intro m
  induction m with
  | nil => rfl
  | cons kv rest ih =>
    obtain ⟨k, v⟩ := kv
    by_cases hk' : k = h'
    · subst hk'
      by_cases hk : h = k
      · subst hk
        simp [List.lookup_cons]
      · simp [List.lookup_cons, beq_eq_false_iff_ne.mpr hk, ih]
    · by_cases hk : h = k
      · subst hk
        simp [List.lookup_cons, hk']
      · simp [List.lookup_cons, hk', beq_eq_false_iff_ne.mpr hk, ih]

theorem lookup_isSome_append (h : ℕ) (x : ℕ × ℕ) :
    ∀ m : List (ℕ × ℕ), (m.lookup h).isSome = true →
      ((m ++ [x]).lookup h).isSome = true := by
  intro m
  induction m with
  | nil => intro hs; simp at hs
  | cons kv rest ih =>
    obtain ⟨k, v⟩ := kv
    intro hs
    by_cases hk : h = k
    · subst hk
      simp [List.lookup_cons]
    · simp only [List.lookup_cons, beq_eq_false_iff_ne.mpr hk] at hs
      simp only [List.cons_append, List.lookup_cons, beq_eq_false_iff_ne.mpr hk]
      exact ih hs

theorem insertType_lookup_isSome (m : List (ℕ × ℕ)) (h h' t : ℕ)
    (hs : (m.lookup h).isSome) : ((insertType m h' t).lookup h).isSome := by
  rw [insertType]
  split
  · rw [lookup_isSome_map_replace]
    exact hs
  · exact lookup_isSome_append h _ m hs

/-- **C8.** From the initial world, after any sequence of facade
operations: every live rigid-body handle has exactly one registry entry;
that entry carries the spawn tag (`0` for boxes and the floor, `1` for
spheres); no operation ever removes an entry (a resolvable handle stays
resolvable); each of the three rigid spawns grows the registry by exactly
one entry; and a handle absent from the registry renders with the box tag
`0`. -/
theorem registry_invariant (ops : List WOp) :
    (∀ h, h ∈ (applyOps PWorld.init ops).bodies.map Prod.fst →
      ((applyOps PWorld.init ops).objectTypes.map Prod.fst).count h = 1) ∧
    (∀ h k, (h, k) ∈ (applyOps PWorld.init ops).bodies →
      (applyOps PWorld.init ops).objectTypes.lookup h = some (tagOf k)) ∧
    (∀ op h, (((applyOps PWorld.init ops).objectTypes.lookup h).isSome = true) →
      (((applyOp (applyOps PWorld.init ops) op).objectTypes.lookup h).isSome = true)) ∧
    ((applyOps PWorld.init ops).spawn_box.objectTypes.length =
      (applyOps PWorld.init ops).objectTypes.length + 1 ∧
     (applyOps PWorld.init ops).spawn_sphere.objectTypes.length =
      (applyOps PWorld.init ops).objectTypes.length + 1 ∧
     (applyOps PWorld.init ops).spawn_floor.objectTypes.length =
      (applyOps PWorld.init ops).objectTypes.length + 1) ∧
    (∀ h, (applyOps PWorld.init ops).objectTypes.lookup h = none →
      lookupType (applyOps PWorld.init ops).objectTypes h = 0) := by
  have hinv : RegInv (applyOps PWorld.init ops) :=
    regInv_applyOps ops PWorld.init
      ⟨rfl, by intro hk hmem; simp [PWorld.init] at hmem, List.Pairwise.nil⟩
  have hlook : (applyOps PWorld.init ops).objectTypes.lookup
      (applyOps PWorld.init ops).nextHandle = none := by
    apply lookup_none_of_lt
    intro kv hkv
    rw [hinv.1] at hkv
    simp only [List.mem_map] at hkv
    obtain ⟨bk, hbk, hekv⟩ := hkv
    have := hinv.2.1 bk hbk
    rw [← hekv]
    exact this
  refine ⟨?_, ?_, ?_, ?_, ?_⟩
  · intro h hmem
    exact count_map_fst_eq_one h _ hinv hmem
  · intro h k hmem
    rw [hinv.1]
    exact lookup_map_tag h k _ hmem hinv.2.2
  · intro op h hs
    cases op with
    | box => exact insertType_lookup_isSome _ h _ 0 hs
    | sphere => exact insertType_lookup_isSome _ h _ 1 hs
    | floorOp => exact insertType_lookup_isSome _ h _ 0 hs
    | liquid => exact hs
    | tickOp => exact hs
  · refine ⟨?_, ?_, ?_⟩ <;>
      simp [PWorld.spawn_box, PWorld.spawn_sphere, PWorld.spawn_floor, insertType, hlook]
  · intro h hnone
    rw [lookupType, hnone]
    rfl

/-- Witness for C8: after spawning a box, a sphere and the floor, handle 1
(the sphere) has exactly one registry entry, mapped to tag 1. -/
theorem registry_invariant_witness :
    ((applyOps PWorld.init [WOp.box, WOp.sphere, WOp.floorOp]).objectTypes.map
        Prod.fst).count 1 = 1 ∧
    (applyOps PWorld.init [WOp.box, WOp.sphere, WOp.floorOp]).objectTypes.lookup 1 =
      some (tagOf BodyKind.sphere) :=
  ⟨(registry_invariant [WOp.box, WOp.sphere, WOp.floorOp]).1 1 (by decide),
   (registry_invariant [WOp.box, WOp.sphere, WOp.floorOp]).2.1 1 BodyKind.sphere
     (by decide)⟩

/-! ## Embedding of the command dispatch in `Simulation::step` (`lib.rs`) -/

/-- `SimCommand` from `lib.rs`: a command name and optional x/y/z floats. -/
structure SimCommand where
  cmd : String
  x : Option ℚ
  y : Option ℚ
  z : Option ℚ
deriving DecidableEq, Repr

/-- The physics calls `Simulation::step` can make while draining the
command queue; `spawn_cloth` is always invoked with the fixed `10 × 10`
grid. -/
inductive PhysAction
  | box (x y z : ℚ)
  | sphere (x y z : ℚ)
  | liquid (x y z : ℚ)
  | cloth (x y z : ℚ) (w h : ℕ)
  | avalanche (x y z : ℚ)
  | tsunami (x y z : ℚ)
deriving DecidableEq, Repr

/-- The `match cmd.cmd.as_str()` dispatch inside `Simulation::step`:
recognized names spawn with `x.unwrap_or(0.0), y.unwrap_or(5.0),
z.unwrap_or(0.0)`; any other name logs `Unknown command: <cmd>` and makes
no physics call. Returns the physics calls made and the log lines
emitted. -/
def processCommand (c : SimCommand) : List PhysAction × List String :=
  match c.cmd with
  | "spawn_box" => ([PhysAction.box (c.x.getD 0) (c.y.getD 5) (c.z.getD 0)], [])
  | "spawn_sphere" => ([PhysAction.sphere (c.x.getD 0) (c.y.getD 5) (c.z.getD 0)], [])
  | "spawn_liquid" => ([PhysAction.liquid (c.x.getD 0) (c.y.getD 5) (c.z.getD 0)], [])
  | "spawn_cloth" =>
    ([PhysAction.cloth (c.x.getD 0) (c.y.getD 5) (c.z.getD 0) 10 10], [])
  | "spawn_avalanche" =>
    ([PhysAction.avalanche (c.x.getD 0) (c.y.getD 5) (c.z.getD 0)], [])
  | "spawn_tsunami" => ([PhysAction.tsunami (c.x.getD 0) (c.y.getD 5) (c.z.getD 0)], [])
  | _ => ([], ["Unknown command: " ++ c.cmd])

/-- One drained queue entry. `serde_json::from_str::<SimCommand>` either
succeeds (`some`) or fails (`none`); the source's `if let Ok(cmd)` has no
`else` branch, so a failed parse is skipped with no log call and no
physics call. -/
def processMessage : Option SimCommand → List PhysAction × List String
  | none => ([], [])
  | some c => processCommand c

/-- The whole `for cmd_str in queue.drain(..)` loop of `Simulation::step`:
every message is processed in order, actions and logs concatenated; the
loop always runs to completion. -/
def processQueue : List (Option SimCommand) → List PhysAction × List String
  | [] => ([], [])
  | m :: rest =>
    ((processMessage m).1 ++ (processQueue rest).1,
     (processMessage m).2 ++ (processQueue rest).2)

/-- The six recognized command names. -/
def recognizedCommands : List String :=
  ["spawn_box", "spawn_sphere", "spawn_liquid", "spawn_cloth",
   "spawn_avalanche", "spawn_tsunami"]

/-- **C9 counterexample.** A malformed payload (failed parse) is skipped
*silently*: draining it produces no physics call and — contradicting the
claim "skipped and logged" — no log line either. -/
theorem malformed_payload_not_logged : processQueue [none] = ([], []) := rfl

/-- **C9 amended.** Draining the queue in `Simulation::step`: a message
whose x/y/z are all absent spawns at the default `(0, 5, 0)`; a
well-formed message with an unrecognized name emits exactly the log line
`Unknown command: <cmd>`, makes no physics call, and the remaining queue
is still processed; a malformed payload is skipped with no log line and
no physics call, and the remaining queue is still processed. -/
theorem command_dispatch_amended (c : SimCommand) (rest : List (Option SimCommand)) :
    (c.x = none → c.y = none → c.z = none →
      (c.cmd = "spawn_box" → processQueue (some c :: rest) =
        (PhysAction.box 0 5 0 :: (processQueue rest).1, (processQueue rest).2)) ∧
      (c.cmd = "spawn_sphere" → processQueue (some c :: rest) =
        (PhysAction.sphere 0 5 0 :: (processQueue rest).1, (processQueue rest).2)) ∧
      (c.cmd = "spawn_liquid" → processQueue (some c :: rest) =
        (PhysAction.liquid 0 5 0 :: (processQueue rest).1, (processQueue rest).2)) ∧
      (c.cmd = "spawn_cloth" → processQueue (some c :: rest) =
        (PhysAction.cloth 0 5 0 10 10 :: (processQueue rest).1, (processQueue rest).2)) ∧
      (c.cmd = "spawn_avalanche" → processQueue (some c :: rest) =
        (PhysAction.avalanche 0 5 0 :: (processQueue rest).1, (processQueue rest).2)) ∧
      (c.cmd = "spawn_tsunami" → processQueue (some c :: rest) =
        (PhysAction.tsunami 0 5 0 :: (processQueue rest).1, (processQueue rest).2))) ∧
    (c.cmd ∉ recognizedCommands → processQueue (some c :: rest) =
      ((processQueue rest).1,
       ("Unknown command: " ++ c.cmd) :: (processQueue rest).2)) ∧
    processQueue (none :: rest) = processQueue rest := by
  refine ⟨?_, ?_, ?_⟩
  · intro hx hy hz
    refine ⟨?_, ?_, ?_, ?_, ?_, ?_⟩ <;>
      · intro hcmd
        simp [processQueue, processMessage, processCommand, hcmd, hx, hy, hz]
  · intro hnot
    simp only [recognizedCommands, List.mem_cons, List.not_mem_nil, or_false] at hnot
    push_neg at hnot
    obtain ⟨h1, h2, h3, h4, h5, h6⟩ := hnot
    have hpc : processCommand c = ([], ["Unknown command: " ++ c.cmd]) := by
      unfold processCommand
      split <;> simp_all
    simp [processQueue, processMessage, hpc]
  · simp [processQueue, processMessage]

/-- Witness for C9 (amended): a well-formed but unrecognized command is
logged and ignored while the rest of the queue is still drained. -/
theorem command_dispatch_amended_witness :
    processQueue [some ⟨"bogus", none, none, none⟩] =
      ((processQueue []).1,
       ("Unknown command: " ++ "bogus") :: (processQueue []).2) :=
  (command_dispatch_amended ⟨"bogus", none, none, none⟩ []).2.1 (by decide)

/-! ## C6: two-particle spring convergence -/

/-- `sqrtFn` computes exact square roots of rational squares. `Rat.sqrt`
has this property, so the hypothesis is satisfiable by a computable
function; it pins the embedded `sqrtFn` to the mathematical square root on
every value the two-particle scenario feeds it. -/
def SqrtExact (sqrtFn : ℚ → ℚ) : Prop := ∀ q : ℚ, 0 ≤ q → sqrtFn (q * q) = q

theorem sqrtExact_ratSqrt : SqrtExact Rat.sqrt := by
  intro q hq
  rw [Rat.sqrt_eq]
  exact abs_of_nonneg hq

/-- An isolated soft body of exactly two unpinned unit-mass particles with
equal velocities, separated by `d` along the x axis, joined by one spring
of rest length `L`. -/
def twoBody (L st da x y z vx vy vz d : ℚ) : SoftBody :=
  { particles :=
      [{ position := ⟨x, y, z⟩, velocity := ⟨vx, vy, vz⟩, mass := 1, inv_mass := 1,
         pinned := false },
       { position := ⟨x + d, y, z⟩, velocity := ⟨vx, vy, vz⟩, mass := 1, inv_mass := 1,
         pinned := false }]
    springs := [⟨0, 1, L, st, da⟩] }

/-- The inter-particle distance of a two-particle body whose particles
differ only in their x coordinate (for `twoBody` this is the Euclidean
distance between the two particles). -/
def gapOf (sb : SoftBody) : ℚ :=
  (getP sb.particles 1).position.x - (getP sb.particles 0).position.x

theorem gapOf_twoBody (L st da x y z vx vy vz d : ℚ) :
    gapOf (twoBody L st da x y z vx vy vz d) = d := by
  simp [gapOf, twoBody, getP]

/-- One relaxation pass over the single spring of an axis-aligned pair:
the gap `d ≥ 1e-4` contracts to `d/5 + 4L/5` and both velocities are
damped by `0.999`. -/
theorem relaxSpring_aligned (sqrtFn : ℚ → ℚ) (hs : SqrtExact sqrtFn)
    (L st da x y z vx vy vz d : ℚ) (hd : 1 / 10000 ≤ d) :
    relaxSpring sqrtFn
      [{ position := ⟨x, y, z⟩, velocity := ⟨vx, vy, vz⟩, mass := 1, inv_mass := 1,
         pinned := false },
       { position := ⟨x + d, y, z⟩, velocity := ⟨vx, vy, vz⟩, mass := 1, inv_mass := 1,
         pinned := false }]
      ⟨0, 1, L, st, da⟩ =
      [{ position := ⟨x + 2 / 5 * (d - L), y, z⟩,
         velocity := ⟨999 / 1000 * vx, 999 / 1000 * vy, 999 / 1000 * vz⟩,
         mass := 1, inv_mass := 1, pinned := false },
       { position := ⟨x + 2 / 5 * (d - L) + (1 / 5 * d + 4 / 5 * L), y, z⟩,
         velocity := ⟨999 / 1000 * vx, 999 / 1000 * vy, 999 / 1000 * vz⟩,
         mass := 1, inv_mass := 1, pinned := false }] := by
  have hdpos : (0 : ℚ) < d := lt_of_lt_of_le (by norm_num) hd
  have hdne : d ≠ 0 := ne_of_gt hdpos
  have hns : normSq (({ x := x + d, y := y, z := z } : Vec3) -
      ({ x := x, y := y, z := z } : Vec3)) = d * d := by
    simp only [Vec3.sub_mk, normSq]
    ring
  simp only [relaxSpring, getP, List.getD_cons_zero, List.getD_cons_succ]
  rw [hns, hs d (le_of_lt hdpos), if_neg (not_lt.mpr hd)]
  simp only [updAt, getP, List.getD_cons_zero, List.getD_cons_succ,
    List.set_cons_zero, List.set_cons_succ, Bool.false_eq_true, if_false,
    Vec3.sub_mk, Vec3.add_mk, Vec3.smul_mk, List.cons.injEq, Particle.mk.injEq,
    Vec3.mk.injEq, and_true, true_and]
  repeat' apply And.intro
  all_goals try field_simp
  all_goals try ring

/-- `n` consecutive calls to `SoftBody::step` with fixed inputs. -/
def stepN (dt : ℚ) (gravity : Vec3) (sqrtFn : ℚ → ℚ)
    (query : Vec3 → Option (Vec3 × Bool)) : ℕ → SoftBody → SoftBody
  | 0, sb => sb
  | n + 1, sb => stepN dt gravity sqrtFn query n (sb.step dt gravity sqrtFn query)

/-- One full `step` of the aligned two-particle body with no collider
(`query` always empty) and floor contact never engaged
(`y ≥ 0`, `vy ≥ 0`, `g.y ≥ 0`, `dt ≥ 0` keep the tentative `y`
nonnegative): the gap contracts from `d` to `d/25 + 24L/25`, both
particles stay aligned with equal velocities damped by `0.999²`. -/
theorem twoBody_step (L st da x y z vx vy vz d dt gx gy gz : ℚ) (sqrtFn : ℚ → ℚ)
    (hs : SqrtExact sqrtFn) (hd : 1 / 10000 ≤ d) (hL : 1 / 10000 ≤ L)
    (hy : 0 ≤ y) (hvy : 0 ≤ vy) (hgy : 0 ≤ gy) (hdt : 0 ≤ dt) :
    (twoBody L st da x y z vx vy vz d).step dt ⟨gx, gy, gz⟩ sqrtFn (fun _ => none) =
      twoBody L st da
        (x + 2 / 5 * (d - L) + 2 / 5 * ((1 / 5 * d + 4 / 5 * L) - L) +
          dt * (999 / 1000 * (999 / 1000 * (vx + dt * gx))))
        (y + dt * (999 / 1000 * (999 / 1000 * (vy + dt * gy))))
        (z + dt * (999 / 1000 * (999 / 1000 * (vz + dt * gz))))
        (999 / 1000 * (999 / 1000 * (vx + dt * gx)))
        (999 / 1000 * (999 / 1000 * (vy + dt * gy)))
        (999 / 1000 * (999 / 1000 * (vz + dt * gz)))
        (1 / 25 * d + 24 / 25 * L) := by
  have hd1 : (1 : ℚ) / 10000 ≤ 1 / 5 * d + 4 / 5 * L := by linarith
  have h1 := relaxSpring_aligned sqrtFn hs L st da x y z
    (vx + dt * gx) (vy + dt * gy) (vz + dt * gz) d hd
  have h2 := relaxSpring_aligned sqrtFn hs L st da (x + 2 / 5 * (d - L)) y z
    (999 / 1000 * (vx + dt * gx)) (999 / 1000 * (vy + dt * gy))
    (999 / 1000 * (vz + dt * gz)) (1 / 5 * d + 4 / 5 * L) hd1
  have huy : 0 ≤ 999 / 1000 * (999 / 1000 * (vy + dt * gy)) := by
    have h0 : (0 : ℚ) ≤ vy + dt * gy := add_nonneg hvy (mul_nonneg hdt hgy)
    have h9 : (0 : ℚ) ≤ 999 / 1000 := by norm_num
    exact mul_nonneg h9 (mul_nonneg h9 h0)
  have hyn : ¬(y + dt * (999 / 1000 * (999 / 1000 * (vy + dt * gy))) < 0) := by
    push_neg
    exact add_nonneg hy (mul_nonneg hdt huy)
  simp only [SoftBody.step, twoBody, gravityPhase, List.map_cons, List.map_nil,
    Bool.false_eq_true, if_false, Vec3.smul_mk, Vec3.add_mk, relaxPhase,
    relaxIteration, List.foldl_cons, List.foldl_nil]
  rw [h1, h2]
  simp only [List.map_cons, List.map_nil, integrateParticle, tentative,
    Bool.false_eq_true, if_false, Vec3.smul_mk, Vec3.add_mk]
  rw [if_neg hyn, if_neg hyn]
  simp only [List.cons.injEq, Particle.mk.injEq, Vec3.mk.injEq, and_true, true_and]
  repeat' apply And.intro
  all_goals ring

theorem twoBody_stepN (L st da dt gx gy gz : ℚ) (sqrtFn : ℚ → ℚ)
    (hs : SqrtExact sqrtFn) (hL : 1 / 10000 ≤ L) (hgy : 0 ≤ gy) (hdt : 0 ≤ dt) :
    ∀ (n : ℕ) (x y z vx vy vz d : ℚ), 1 / 10000 ≤ d → 0 ≤ y → 0 ≤ vy →
      ∃ x' y' z' vx' vy' vz',
        stepN dt ⟨gx, gy, gz⟩ sqrtFn (fun _ => none) n
            (twoBody L st da x y z vx vy vz d) =
          twoBody L st da x' y' z' vx' vy' vz' (L + (1 / 25) ^ n * (d - L)) ∧
        0 ≤ y' ∧ 0 ≤ vy' := by
  intro n
  induction n with
  | zero =>
    intro x y z vx vy vz d hd hy hvy
    refine ⟨x, y, z, vx, vy, vz, ?_, hy, hvy⟩
    have he : L + (1 / 25 : ℚ) ^ 0 * (d - L) = d := by ring
    rw [he]
    rfl
  | succ n ih =>
    intro x y z vx vy vz d hd hy hvy
    have hstep := twoBody_step L st da x y z vx vy vz d dt gx gy gz sqrtFn hs hd hL
      hy hvy hgy hdt
    have hd' : (1 : ℚ) / 10000 ≤ 1 / 25 * d + 24 / 25 * L := by linarith
    have hvy' : 0 ≤ 999 / 1000 * (999 / 1000 * (vy + dt * gy)) := by
      have h0 : (0 : ℚ) ≤ vy + dt * gy := add_nonneg hvy (mul_nonneg hdt hgy)
      have h9 : (0 : ℚ) ≤ 999 / 1000 := by norm_num
      exact mul_nonneg h9 (mul_nonneg h9 h0)
    have hy' : 0 ≤ y + dt * (999 / 1000 * (999 / 1000 * (vy + dt * gy))) :=
      add_nonneg hy (mul_nonneg hdt hvy')
    obtain ⟨x', y', z', vx', vy', vz', heq, hy2, hvy2⟩ :=
      ih (x + 2 / 5 * (d - L) + 2 / 5 * ((1 / 5 * d + 4 / 5 * L) - L) +
          dt * (999 / 1000 * (999 / 1000 * (vx + dt * gx))))
        (y + dt * (999 / 1000 * (999 / 1000 * (vy + dt * gy))))
        (z + dt * (999 / 1000 * (999 / 1000 * (vz + dt * gz))))
        (999 / 1000 * (999 / 1000 * (vx + dt * gx)))
        (999 / 1000 * (999 / 1000 * (vy + dt * gy)))
        (999 / 1000 * (999 / 1000 * (vz + dt * gz)))
        (1 / 25 * d + 24 / 25 * L) hd' hy' hvy'
    have hde : L + (1 / 25 : ℚ) ^ n * ((1 / 25 * d + 24 / 25 * L) - L) =
        L + (1 / 25) ^ (n + 1) * (d - L) := by ring
    rw [hde] at heq
    refine ⟨x', y', z', vx', vy', vz', ?_, hy2, hvy2⟩
    show stepN dt ⟨gx, gy, gz⟩ sqrtFn (fun _ => none) n
        ((twoBody L st da x y z vx vy vz d).step dt ⟨gx, gy, gz⟩ sqrtFn
          (fun _ => none)) = _
    rw [hstep]
    exact heq

theorem ratSqrt_zero : Rat.sqrt 0 = 0 := by
  have h := Rat.sqrt_eq (0 : ℚ)
  simpa using h

/-- The coincident degenerate pair is a fixed point of `step` under zero
gravity and an empty collider query: the spring is skipped every pass. -/
theorem twoBody_degenerate_fixed :
    (twoBody 1 100 (1 / 2) 0 1 0 0 0 0 0).step 1 ⟨0, 0, 0⟩ Rat.sqrt
        (fun _ => none) = twoBody 1 100 (1 / 2) 0 1 0 0 0 0 0 := by
  have h1 : relaxSpring Rat.sqrt
      [{ position := ⟨0, 1, 0⟩, velocity := ⟨0, 0, 0⟩, mass := 1, inv_mass := 1,
         pinned := false },
       { position := ⟨0, 1, 0⟩, velocity := ⟨0, 0, 0⟩, mass := 1, inv_mass := 1,
         pinned := false }]
      ⟨0, 1, 1, 100, 1 / 2⟩ =
      [{ position := ⟨0, 1, 0⟩, velocity := ⟨0, 0, 0⟩, mass := 1, inv_mass := 1,
         pinned := false },
       { position := ⟨0, 1, 0⟩, velocity := ⟨0, 0, 0⟩, mass := 1, inv_mass := 1,
         pinned := false }] := by
    apply relaxSpring_skips_degenerate
    simp only [getP, List.getD_cons_zero, List.getD_cons_succ, Vec3.sub_mk, normSq]
    norm_num [ratSqrt_zero]
  norm_num [SoftBody.step, twoBody, gravityPhase, relaxPhase, relaxIteration,
    Vec3.smul_mk, Vec3.add_mk]
  rw [h1, h1]
  norm_num [integrateParticle, tentative, Vec3.smul_mk, Vec3.add_mk]

/-- **C6 counterexample.** The claim as stated fails for a degenerate pair:
two coincident particles (`gap 0 < 1e-4`) joined by a spring of rest
length `1` are never corrected — after three steps (zero gravity, no
colliders, floor untouched) the inter-particle distance is still `0`,
not driven toward the rest length `1`. -/
theorem two_particle_counterexample :
    gapOf (twoBody 1 100 (1 / 2) 0 1 0 0 0 0 0) = 0 ∧
    gapOf (stepN 1 ⟨0, 0, 0⟩ Rat.sqrt (fun _ => none) 3
      (twoBody 1 100 (1 / 2) 0 1 0 0 0 0 0)) = 0 := by
  constructor
  · rw [gapOf_twoBody]
  · show gapOf (stepN 1 ⟨0, 0, 0⟩ Rat.sqrt (fun _ => none) 2
      ((twoBody 1 100 (1 / 2) 0 1 0 0 0 0 0).step 1 ⟨0, 0, 0⟩ Rat.sqrt
        (fun _ => none))) = 0
    rw [twoBody_degenerate_fixed]
    show gapOf (stepN 1 ⟨0, 0, 0⟩ Rat.sqrt (fun _ => none) 1
      ((twoBody 1 100 (1 / 2) 0 1 0 0 0 0 0).step 1 ⟨0, 0, 0⟩ Rat.sqrt
        (fun _ => none))) = 0
    rw [twoBody_degenerate_fixed]
    show gapOf (stepN 1 ⟨0, 0, 0⟩ Rat.sqrt (fun _ => none) 0
      ((twoBody 1 100 (1 / 2) 0 1 0 0 0 0 0).step 1 ⟨0, 0, 0⟩ Rat.sqrt
        (fun _ => none))) = 0
    rw [twoBody_degenerate_fixed]
    show gapOf (twoBody 1 100 (1 / 2) 0 1 0 0 0 0 0) = 0
    rw [gapOf_twoBody]

/-- **C6 amended.** For an isolated axis-aligned two-particle spring
system with equal initial velocities, no colliders, floor contact never
engaged, and both the initial separation and the rest length at least the
degeneracy epsilon `1e-4`: after `n` steps the inter-particle distance is
exactly `L + (1/25)^n (d - L)`, so the deviation from the rest length
shrinks monotonically (by a factor 25 per step) and never exceeds the
initial deviation — the distance never diverges. -/
theorem two_particle_spring_convergence (L st da x y z vx vy vz d dt gx gy gz : ℚ)
    (sqrtFn : ℚ → ℚ) (hs : SqrtExact sqrtFn)
    (hd : 1 / 10000 ≤ d) (hL : 1 / 10000 ≤ L) (hy : 0 ≤ y) (hvy : 0 ≤ vy)
    (hgy : 0 ≤ gy) (hdt : 0 ≤ dt) (n : ℕ) :
    gapOf (stepN dt ⟨gx, gy, gz⟩ sqrtFn (fun _ => none) n
        (twoBody L st da x y z vx vy vz d)) = L + (1 / 25) ^ n * (d - L) ∧
    |gapOf (stepN dt ⟨gx, gy, gz⟩ sqrtFn (fun _ => none) (n + 1)
        (twoBody L st da x y z vx vy vz d)) - L| ≤
      |gapOf (stepN dt ⟨gx, gy, gz⟩ sqrtFn (fun _ => none) n
        (twoBody L st da x y z vx vy vz d)) - L| ∧
    |gapOf (stepN dt ⟨gx, gy, gz⟩ sqrtFn (fun _ => none) n
        (twoBody L st da x y z vx vy vz d)) - L| ≤ |d - L| := by
  have key : ∀ m : ℕ, gapOf (stepN dt ⟨gx, gy, gz⟩ sqrtFn (fun _ => none) m
      (twoBody L st da x y z vx vy vz d)) = L + (1 / 25) ^ m * (d - L) := by
    intro m
    obtain ⟨x', y', z', vx', vy', vz', heq, -, -⟩ :=
      twoBody_stepN L st da dt gx gy gz sqrtFn hs hL hgy hdt m x y z vx vy vz d
        hd hy hvy
    rw [heq, gapOf_twoBody]
  have habs : ∀ m : ℕ, |L + ((1 : ℚ) / 25) ^ m * (d - L) - L| =
      (1 / 25) ^ m * |d - L| := by
    intro m
    rw [add_sub_cancel_left, abs_mul, abs_pow]
    have h25 : |(1 : ℚ) / 25| = 1 / 25 := by norm_num
    rw [h25]
  refine ⟨key n, ?_, ?_⟩
  · rw [key n, key (n + 1), habs n, habs (n + 1)]
    have hmono : ((1 : ℚ) / 25) ^ (n + 1) ≤ (1 / 25) ^ n := by
      apply pow_le_pow_of_le_one (by norm_num) (by norm_num)
      omega
    exact mul_le_mul_of_nonneg_right hmono (abs_nonneg _)
  · rw [key n, habs n]
    calc ((1 : ℚ) / 25) ^ n * |d - L| ≤ 1 * |d - L| :=
          mul_le_mul_of_nonneg_right (pow_le_one₀ (by norm_num) (by norm_num))
            (abs_nonneg _)
      _ = |d - L| := one_mul _

/-- Witness for C6 (amended): rest length `1`, initial gap `2`, one step,
everything else zero; the gap becomes `1 + (1/25) * 1`. -/
theorem two_particle_spring_convergence_witness :
    gapOf (stepN 0 ⟨0, 0, 0⟩ Rat.sqrt (fun _ => none) 1
        (twoBody 1 100 (1 / 2) 0 0 0 0 0 0 2)) = 1 + (1 / 25) ^ 1 * (2 - 1) :=
  (two_particle_spring_convergence 1 100 (1 / 2) 0 0 0 0 0 0 2 0 0 0 0 Rat.sqrt
    sqrtExact_ratSqrt (by norm_num) (by norm_num) le_rfl le_rfl le_rfl le_rfl 1).1

end PhysicsSandbox
